import Mathlib

/-!
# Shallow embedding of the `hourglass` task manager core

This file embeds the interactive state machine of the `hourglass` terminal
task manager (`src/main.rs`, `src/app/mod.rs`) in Lean 4 and proves / refutes
the specification claims about it.

Modelling conventions:
* Rust `usize` indices become `Nat`; `i32` ids become `Int` (the application
  manages at most a few hundred tasks, far from `i32` overflow).
* `DateTime<Utc>` timestamps are abstract instants, modelled as `Int`; every
  operation that calls `Utc::now()` takes the current instant `now : Int`
  as an explicit argument.
* A Rust panic (out-of-bounds `Vec::remove`, `usize` underflow in
  `len() - 1` under the default debug profile) is modelled by `Option`:
  `none` means the operation panics.
* The backing file `tasks.hourglass` written by `save_tasks` is modelled as
  an extra state component `disk : List Task` holding the task list whose
  serialization was last written (serialization itself is the external
  `serde_json`, whose round trip is faithful on well-formed data).
* `serde_json::from_str::<Vec<Task>>` is an external library function; the
  load path is parametrized by it (`parse`), and theorems about loading
  state their assumptions about `parse` explicitly (e.g. that the empty
  string is not valid JSON).
-/

namespace HG

/-- Modelled from the spec: the file `src/app/action.rs` is not present in
the sources, only its uses are. Per §3/§4.4, the pending-command state is a
tagged variant: `View` is passive browsing, `Add` and `Update` are the two
text-entry modes. -/
inductive Action where
  | View
  | Add
  | Update
  deriving DecidableEq, Repr

/-- `enum View` from `src/app/mod.rs`: the task screen tagged with the
current `Action`, plus the reserved (never entered) `Issues` screen. -/
inductive View where
  | Task (action : Action)
  | Issues
  deriving DecidableEq, Repr

/-- `struct Task` from `src/app/mod.rs`. Timestamps are abstract instants. -/
structure Task where
  id : Int
  description : String
  completed : Bool
  created_at : Int
  modified_at : Int
  deriving DecidableEq, Repr

/-- The part of `tui::widgets::TableState` the application uses: the
optional selected row index (`selected()` / `select(..)`). -/
structure TableState where
  selected : Option Nat
  deriving DecidableEq, Repr

/-- `struct Hourglass` from `src/app/mod.rs`, extended with `disk`, the
model of the backing file contents as last written by `save_tasks`
(not a field of the Rust struct; it embeds the `fs::write` side effect). -/
structure Hourglass where
  should_quit : Bool
  input : String
  next_id : Int
  view : View
  table_state : TableState
  tasks : List Task
  disk : List Task
  deriving DecidableEq, Repr

/-- `Hourglass::new()`. The initial `disk` stands for the (still untouched)
backing file; it is irrelevant until the first `save_tasks`. -/
def Hourglass.new : Hourglass :=
  { should_quit := false
    input := ""
    next_id := 1
    view := View.Task Action.View
    table_state := { selected := none }
    tasks := []
    disk := [] }

/-- `Hourglass::save_tasks`: serializes the full current task list and
overwrites the backing file. -/
def Hourglass.save_tasks (h : Hourglass) : Hourglass :=
  { h with disk := h.tasks }

/-- `Hourglass::next`. When a row is selected the code computes
`self.tasks.len() - 1`; on an empty store this `usize` subtraction
underflows, a panic under the debug profile (`none`). -/
def Hourglass.next (h : Hourglass) : Option Hourglass :=
  match h.table_state.selected with
  | some i =>
      if h.tasks.length = 0 then
        none
      else
        let j := if i ≥ h.tasks.length - 1 then 0 else i + 1
        some { h with table_state := { selected := some j } }
  | none => some { h with table_state := { selected := some 0 } }

/-- `Hourglass::previous`. `self.tasks.len() - 1` is evaluated only in the
`i == 0` branch; on an empty store it underflows (panic, `none`). -/
def Hourglass.previous (h : Hourglass) : Option Hourglass :=
  match h.table_state.selected with
  | some i =>
      if i = 0 then
        if h.tasks.length = 0 then
          none
        else
          some { h with table_state := { selected := some (h.tasks.length - 1) } }
      else
        some { h with table_state := { selected := some (i - 1) } }
  | none => some { h with table_state := { selected := some 0 } }

/-- `Hourglass::toggle_task_status`: `tasks.get_mut(i)` guards the index, so
an invalid selection is a no-op. Note: no `save_tasks` call. -/
def Hourglass.toggle_task_status (h : Hourglass) : Hourglass :=
  match h.table_state.selected with
  | some i =>
      match h.tasks[i]? with
      | some task =>
          { h with tasks := h.tasks.set i { task with completed := !task.completed } }
      | none => h
  | none => h

/-- `Hourglass::add_task`: clones the input buffer as the description,
clears the buffer, appends a task stamped with the current instant, bumps
`next_id`, saves. -/
def Hourglass.add_task (now : Int) (h : Hourglass) : Hourglass :=
  let description := h.input
  let h := { h with input := "" }
  let newTask : Task :=
    { id := h.next_id
      description := description
      completed := false
      created_at := now
      modified_at := now }
  let h := { h with tasks := h.tasks ++ [newTask] }
  let h := { h with next_id := h.next_id + 1 }
  h.save_tasks

/-- `Hourglass::update_task`: on a valid selection sets the description and
`modified_at` and saves; in every case the input buffer is cleared last. -/
def Hourglass.update_task (now : Int) (h : Hourglass) : Hourglass :=
  let h :=
    match h.table_state.selected with
    | some i =>
        match h.tasks[i]? with
        | some task =>
            let task2 := { task with description := h.input, modified_at := now }
            ({ h with tasks := h.tasks.set i task2 }).save_tasks
        | none => h
    | none => h
  { h with input := "" }

/-- `Hourglass::remove_task`: `Vec::remove(index)` panics when the index is
out of bounds (`none`); on success the selection is left untouched. -/
def Hourglass.remove_task (h : Hourglass) : Option Hourglass :=
  match h.table_state.selected with
  | some index =>
      if index < h.tasks.length then
        some ({ h with tasks := h.tasks.eraseIdx index }).save_tasks
      else
        none
  | none => some h

/-- The `crossterm::event::KeyCode` variants the application matches on;
`Other` stands for every remaining variant (all fall into `_ => {}` arms). -/
inductive KeyCode where
  | Char (c : Char)
  | Enter
  | Backspace
  | Esc
  | Down
  | Up
  | Other
  deriving DecidableEq, Repr

/-- `Hourglass::update_command_input` (text-entry routing for the pending
`Add`/`Update` modes). -/
def Hourglass.update_command_input (now : Int) (key_code : KeyCode)
    (h : Hourglass) : Hourglass :=
  match key_code with
  | KeyCode.Char c => { h with input := h.input.push c }
  | KeyCode.Enter =>
      match h.view with
      | View.Task action =>
          match action with
          | Action.Add => { h.add_task now with view := View.Task Action.View }
          | Action.Update => { h.update_task now with view := View.Task Action.View }
          | _ => h
      | View.Issues => h
  | KeyCode.Backspace => { h with input := h.input.dropRight 1 }
  | KeyCode.Esc => { h with input := "", view := View.Task Action.View }
  | _ => h

/-- `Hourglass::handle_key_for_task_view` (single-key commands in browsing
mode). `next`, `previous` and `remove_task` can panic, hence `Option`. -/
def Hourglass.handle_key_for_task_view (key_code : KeyCode)
    (h : Hourglass) : Option Hourglass :=
  match key_code with
  | KeyCode.Char c =>
      match c with
      | 'q' => some { h with should_quit := true }
      | 'j' => h.next
      | 'k' => h.previous
      | 'd' => some h.toggle_task_status
      | 'a' => some { h with view := View.Task Action.Add }
      | 'u' => some { h with view := View.Task Action.Update }
      | 'x' => h.remove_task
      | _ => some h
  | KeyCode.Down => h.next
  | KeyCode.Up => h.previous
  | _ => some h

/-- `Hourglass::handle_input`: routes a key event by the current view. -/
def Hourglass.handle_input (now : Int) (key : KeyCode)
    (h : Hourglass) : Option Hourglass :=
  match h.view with
  | View.Task action =>
      match action with
      | Action.View => h.handle_key_for_task_view key
      | _ => some (h.update_command_input now key)
  | View.Issues => some h

/-- Process a sequence of key events (the interactive loop of
`Hourglass::run`, one full `handle_input` per event); a panic anywhere
aborts the run (`none`). All events happen at instant `now`. -/
def Hourglass.runKeys (now : Int) (keys : List KeyCode)
    (h : Hourglass) : Option Hourglass :=
  keys.foldlM (fun st k => st.handle_input now k) h

/-- One directory entry as `Hourglass::load_tasks` sees it:
`path.extension()` (`none` when the file has no extension) and the file
content read by `fs::read_to_string`. -/
structure DirEntry where
  ext : Option String
  content : String
  deriving DecidableEq, Repr

/-- The loop body of `Hourglass::load_tasks` over the directory listing:
each `.hourglass` file marks `file_exists` and has its content parsed,
replacing `tasks` wholesale; a parse error propagates immediately (`?`). -/
def Hourglass.loadLoop (parse : String → Except String (List Task))
    (entries : List DirEntry) (h : Hourglass) (file_exists : Bool) :
    Except String (Hourglass × Bool) :=
  match entries with
  | [] => Except.ok (h, file_exists)
  | e :: rest =>
      match e.ext with
      | some extension =>
          if extension = "hourglass" then
            match parse e.content with
            | Except.ok datas => Hourglass.loadLoop parse rest { h with tasks := datas } true
            | Except.error err => Except.error err
          else
            Hourglass.loadLoop parse rest h file_exists
      | none => Hourglass.loadLoop parse rest h file_exists

/-- `Hourglass::load_tasks`, parametrized by the external
`serde_json::from_str::<Vec<Task>>` (`parse`) and by the working-directory
listing. Returns the updated state and whether an empty backing file was
created (`fs::write(HOURGLASS_FILE_STORAGE_NAME, "")` when no `.hourglass`
file was found); a parse error is propagated to the caller. Note that
`next_id` is never updated from the loaded tasks. -/
def Hourglass.load_tasks (parse : String → Except String (List Task))
    (dir : List DirEntry) (h : Hourglass) :
    Except String (Hourglass × Bool) :=
  match Hourglass.loadLoop parse dir h false with
  | Except.ok (h, file_exists) => Except.ok (h, !file_exists)
  | Except.error err => Except.error err

/-! ## Fixtures for concrete witnesses and counterexamples -/

/-- A stand-in instantiation of the external
`serde_json::from_str::<Vec<Task>>` for concrete checks. Like `serde_json`
it accepts the serialization of the empty list (`"[]"`) and of a one-task
list (abbreviated here as the fixture string `"file-with-task-id-1"`), and
it rejects the empty string, which is not valid JSON (EOF error). -/
def mockParse : String → Except String (List Task) := fun s =>
  if s = "[]" then Except.ok []
  else if s = "file-with-task-id-1" then
    Except.ok [{ id := 1
                 description := "loaded"
                 completed := false
                 created_at := 0
                 modified_at := 0 }]
  else Except.error "EOF while parsing a value at line 1 column 0"

/-- A fixture task, as appended first into a fresh store. -/
def demoTask : Task :=
  { id := 1, description := "demo", completed := false
    created_at := 0, modified_at := 0 }

/-- A second fixture task. -/
def demoTask2 : Task :=
  { id := 2, description := "demo2", completed := false
    created_at := 0, modified_at := 0 }

/-- A browsing-mode state with one saved task which is selected. -/
def demoState : Hourglass :=
  { should_quit := false
    input := ""
    next_id := 2
    view := View.Task Action.View
    table_state := { selected := some 0 }
    tasks := [demoTask]
    disk := [demoTask] }

/-- A browsing-mode state with two saved tasks, the second selected. -/
def demoState2 : Hourglass :=
  { should_quit := false
    input := ""
    next_id := 3
    view := View.Task Action.View
    table_state := { selected := some 1 }
    tasks := [demoTask, demoTask2]
    disk := [demoTask, demoTask2] }

/-! ## Id discipline -/

/-- The id discipline of the store: task ids strictly increase from left to
right (hence are unique) and all sit below the next-id counter. -/
def IdInv (h : Hourglass) : Prop :=
  (h.tasks.map Task.id).Pairwise (· < ·) ∧ ∀ t ∈ h.tasks, t.id < h.next_id

/-- A sequence of `append` calls: for each `(text, now)` pair the user types
`text` into the input buffer and commits, so `add_task` runs at instant
`now`. -/
def appendSeq (h : Hourglass) (calls : List (String × Int)) : Hourglass :=
  calls.foldl (fun st c => Hourglass.add_task c.2 { st with input := c.1 }) h

/-! ## Helper lemmas -/

theorem list_set_of_getElem? {α : Type} {l : List α} {i : Nat} {a : α}
    (h : l[i]? = some a) : l.set i a = l := by
  induction l generalizing i with
  | nil => simp at h
  | cons x xs ih =>
    cases i with
    | zero => simp_all
    | succ n => simp_all [List.set]

theorem list_lt_length_of_getElem? {α : Type} {l : List α} {i : Nat} {a : α}
    (h : l[i]? = some a) : i < l.length :=
  (List.getElem?_eq_some.mp h).1

theorem map_set_of_getElem? {α β : Type} (f : α → β) {l : List α} {i : Nat}
    {a b : α} (hget : l[i]? = some a) (hfb : f b = f a) :
    (l.set i b).map f = l.map f := by
  rw [List.map_set, hfb]
  apply list_set_of_getElem?
  rw [List.getElem?_map, hget]
  rfl

/-- `add_task` in closed form. -/
theorem add_task_eq (now : Int) (h : Hourglass) :
    h.add_task now =
      { h with
        input := ""
        tasks := h.tasks ++ [{ id := h.next_id
                               description := h.input
                               completed := false
                               created_at := now
                               modified_at := now }]
        next_id := h.next_id + 1
        disk := h.tasks ++ [{ id := h.next_id
                              description := h.input
                              completed := false
                              created_at := now
                              modified_at := now }] } := rfl

/-- `add_task` preserves the id discipline. -/
theorem add_task_IdInv {h : Hourglass} (now : Int) (hinv : IdInv h) :
    IdInv (h.add_task now) := by
  obtain ⟨hpair, hlt⟩ := hinv
  rw [add_task_eq]
  constructor
  · simp only [List.map_append, List.map_cons, List.map_nil]
    rw [List.pairwise_append]
    refine ⟨hpair, by simp, ?_⟩
    intro a ha b hb
    simp only [List.mem_singleton] at hb
    subst hb
    simp only [List.mem_map] at ha
    obtain ⟨t, ht, rfl⟩ := ha
    exact hlt t ht
  · intro t ht
    dsimp only at ht ⊢
    rcases List.mem_append.mp ht with h1 | h1
    · have := hlt t h1
      omega
    · simp only [List.mem_singleton] at h1
      subst h1
      dsimp only
      omega

/-- Setting the input buffer does not touch the id discipline. -/
theorem IdInv_set_input {h : Hourglass} (s : String) (hinv : IdInv h) :
    IdInv { h with input := s } := hinv

theorem appendSeq_IdInv {h : Hourglass} (calls : List (String × Int))
    (hinv : IdInv h) :
    IdInv (appendSeq h calls) ∧ h.next_id ≤ (appendSeq h calls).next_id := by
  induction calls generalizing h with
  | nil => exact ⟨hinv, le_refl _⟩
  | cons c rest ih =>
    have hstep : IdInv (Hourglass.add_task c.2 { h with input := c.1 }) :=
      add_task_IdInv c.2 (IdInv_set_input c.1 hinv)
    obtain ⟨h1, h2⟩ := ih hstep
    refine ⟨h1, ?_⟩
    have hx : (Hourglass.add_task c.2 { h with input := c.1 }).next_id = h.next_id + 1 := rfl
    simp only [appendSeq, List.foldl_cons] at h2 ⊢
    omega

/-! ## Claim theorems -/

/-- Claim C1, counterexample: from a fresh start, the trace
a, Enter, j, d adds a task (saving it with `completed = false`), selects it
and toggles it with the d command; afterwards the task is completed in
memory but the backing file still holds the un-completed version, so the
toggle was not followed by a save of the task list. -/
theorem C1_counterexample :
    (Hourglass.runKeys 0 [KeyCode.Char 'a', KeyCode.Enter, KeyCode.Char 'j',
      KeyCode.Char 'd'] Hourglass.new).map
      (fun st => (st.tasks.map Task.completed, st.disk.map Task.completed)) =
    some ([true], [false]) := by decide

/-- Claim C1 (amended): `add_task` always saves; `update_task` and
`remove_task` save whenever the selection is a valid index (so the backing
file equals the in-memory list on return); but `toggle_task_status` never
writes the backing file, so after a d command the on-disk state lags. -/
theorem C1_persistence (h : Hourglass) (now : Int) :
    ((h.add_task now).disk = (h.add_task now).tasks)
    ∧ (∀ i task, h.table_state.selected = some i → h.tasks[i]? = some task →
        (h.update_task now).disk = (h.update_task now).tasks)
    ∧ (∀ i, h.table_state.selected = some i → i < h.tasks.length →
        (h.remove_task).map Hourglass.disk = (h.remove_task).map Hourglass.tasks)
    ∧ h.toggle_task_status.disk = h.disk := by
  refine ⟨rfl, ?_, ?_, ?_⟩
  · intro i task hsel hget
    simp [Hourglass.update_task, hsel, hget, Hourglass.save_tasks]
  · intro i hsel hlen
    simp [Hourglass.remove_task, hsel, hlen, Hourglass.save_tasks]
  · rcases hsel : h.table_state.selected with _ | i
    · simp [Hourglass.toggle_task_status, hsel]
    · rcases hget : h.tasks[i]? with _ | task <;>
        simp [Hourglass.toggle_task_status, hsel, hget]

/-- Witness for C1 at a concrete one-task state with the task selected. -/
theorem C1_persistence_witness :
    ((demoState.add_task 3).disk = (demoState.add_task 3).tasks)
    ∧ ((demoState.update_task 3).disk = (demoState.update_task 3).tasks)
    ∧ ((demoState.remove_task).map Hourglass.disk =
        (demoState.remove_task).map Hourglass.tasks)
    ∧ demoState.toggle_task_status.disk = demoState.disk := by
  obtain ⟨h1, h2, h3, h4⟩ := C1_persistence demoState 3
  exact ⟨h1, h2 0 demoTask (by decide) (by decide), h3 0 (by decide) (by decide), h4⟩

/-- Claim C2, counterexample: from a fresh start, the trace
a, Enter, j, x adds a task, selects it and removes it; the store is now
empty yet the selection still reads index 0, which is not `None` and not in
bounds — `remove_task` neither clears nor clamps the cursor. -/
theorem C2_counterexample :
    (Hourglass.runKeys 0 [KeyCode.Char 'a', KeyCode.Enter, KeyCode.Char 'j',
      KeyCode.Char 'x'] Hourglass.new).map
      (fun st => (st.table_state.selected, st.tasks)) =
    some (some 0, []) := by decide

/-- Claim C2 (amended): a successful removal leaves the selection exactly as
it was while the store shrinks by one, so removing the only, selected task
leaves the selection at index 0 over an empty store (out of bounds) rather
than clearing it to `None`. -/
theorem C2_remove_keeps_selection (h : Hourglass) (i : Nat)
    (hsel : h.table_state.selected = some i) (hlen : i < h.tasks.length) :
    (h.remove_task).map (fun s => s.table_state.selected) = some (some i)
    ∧ (h.remove_task).map (fun s => s.tasks.length) = some (h.tasks.length - 1) := by
  constructor
  · simp [Hourglass.remove_task, hsel, hlen, Hourglass.save_tasks]
  · simp [Hourglass.remove_task, hsel, hlen, Hourglass.save_tasks,
      List.length_eraseIdx]

/-- Witness for C2 at the concrete one-task selected state. -/
theorem C2_remove_keeps_selection_witness :
    ((demoState.remove_task).map (fun s => s.table_state.selected) = some (some 0)
    ∧ (demoState.remove_task).map (fun s => s.tasks.length) =
        some (demoState.tasks.length - 1)) :=
  C2_remove_keeps_selection demoState 0 (by decide) (by decide)

/-- Claim C3: the key trace a, Enter, j, x, x is reachable from the initial
state and panics: the second x runs `self.tasks.remove(0)` on an empty
store (the stale selection left behind by the first removal), so handling a
key event in a reachable state can crash the session. -/
theorem C3_reachable_panic :
    Hourglass.runKeys 0 [KeyCode.Char 'a', KeyCode.Enter, KeyCode.Char 'j',
      KeyCode.Char 'x', KeyCode.Char 'x'] Hourglass.new = none := by decide

/-- Claim C4: whenever the parser (the external `serde_json`) rejects the
empty string — which it does, the empty string is not valid JSON — loading
a directory whose `.hourglass` backing file is empty propagates that parse
error instead of initializing an empty store. The empty backing file is
exactly what `load_tasks` itself creates on a first run. -/
theorem C4_empty_backing_file_fails
    (parse : String → Except String (List Task)) (e : String)
    (hparse : parse "" = Except.error e) (h : Hourglass) :
    Hourglass.load_tasks parse [{ ext := some "hourglass", content := "" }] h =
      Except.error e := by
  simp [Hourglass.load_tasks, Hourglass.loadLoop, hparse]

/-- Witness for C4 with the concrete parser stand-in. -/
theorem C4_empty_backing_file_fails_witness :
    Hourglass.load_tasks mockParse [{ ext := some "hourglass", content := "" }]
      Hourglass.new =
    Except.error "EOF while parsing a value at line 1 column 0" :=
  C4_empty_backing_file_fails mockParse _ rfl Hourglass.new

/-- Claim C5, counterexample: `load_tasks` installs the loaded tasks but
never advances `next_id`; loading a backing file holding a task with id 1
and then committing one append produces a store whose ids are `[1, 1]` —
not unique. -/
theorem C5_counterexample :
    ((Hourglass.load_tasks mockParse
        [{ ext := some "hourglass", content := "file-with-task-id-1" }]
        Hourglass.new).toOption.bind
      (fun p => Hourglass.runKeys 7 [KeyCode.Char 'a', KeyCode.Enter] p.1)).map
      (fun st => st.tasks.map Task.id) = some [1, 1]
    ∧ ¬ ([1, 1] : List Int).Nodup := by
  exact ⟨by decide, by decide⟩

/-- Claim C5 (amended): along any sequence of `append` calls the id
discipline `IdInv` is preserved — appended ids strictly increase, ids in
the store stay unique, and the next-id counter only increases; the initial
state satisfies the discipline. (What fails in the original claim is only
the loaded-tasks part: `load_tasks` does not lift `next_id` above the ids
read from the backing file.) -/
theorem C5_append_ids (h : Hourglass) (calls : List (String × Int))
    (hinv : IdInv h) :
    IdInv Hourglass.new
    ∧ IdInv (appendSeq h calls)
    ∧ ((appendSeq h calls).tasks.map Task.id).Nodup
    ∧ h.next_id ≤ (appendSeq h calls).next_id := by
  obtain ⟨h1, h2⟩ := appendSeq_IdInv calls hinv
  refine ⟨⟨by simp [Hourglass.new], by simp [Hourglass.new]⟩, h1, ?_, h2⟩
  exact h1.1.imp (fun hab => ne_of_lt hab)

/-- Witness for C5: two appends from the initial state. -/
theorem C5_append_ids_witness :
    IdInv Hourglass.new
    ∧ IdInv (appendSeq Hourglass.new [("milk", 1), ("eggs", 2)])
    ∧ ((appendSeq Hourglass.new [("milk", 1), ("eggs", 2)]).tasks.map Task.id).Nodup
    ∧ Hourglass.new.next_id ≤ (appendSeq Hourglass.new [("milk", 1), ("eggs", 2)]).next_id :=
  C5_append_ids Hourglass.new [("milk", 1), ("eggs", 2)]
    ⟨by simp [Hourglass.new], by simp [Hourglass.new]⟩

/-- Claim C6, counterexample: in the initial state the store is empty and
nothing is selected, yet `next` (the j / Down command) selects index 0 —
an out-of-bounds index — instead of leaving the selection `None`. -/
theorem C6_counterexample :
    (Hourglass.new.next).map (fun st => (st.table_state.selected, st.tasks)) =
    some (some 0, []) := by decide

/-- Claim C6 (amended): `next` on an empty store with no selection is not a
no-op: it always selects index 0, which is out of bounds for the empty
store. -/
theorem C6_advance_empty_selects_zero (h : Hourglass)
    (_hempty : h.tasks = []) (hsel : h.table_state.selected = none) :
    h.next = some { h with table_state := { selected := some 0 } } := by
  simp [Hourglass.next, hsel]

/-- Witness for C6 at the initial state. -/
theorem C6_advance_empty_selects_zero_witness :
    Hourglass.new.next =
      some { Hourglass.new with table_state := { selected := some 0 } } :=
  C6_advance_empty_selects_zero Hourglass.new rfl rfl

/-- Claim C7: for every state with a non-empty store and a valid selected
index, `next` followed by `previous` returns the whole state — selection
included — to the original. -/
theorem C7_advance_then_retreat (h : Hourglass) (i : Nat)
    (hsel : h.table_state.selected = some i) (hlen : i < h.tasks.length) :
    h.next.bind Hourglass.previous = some h := by
  obtain ⟨q, inp, nid, v, ⟨sel⟩, tasks, disk⟩ := h
  simp only at hsel hlen
  subst hsel
  have hne : ¬ tasks.length = 0 := by omega
  have hnil : ¬ tasks = [] := by
    intro hx
    rw [hx] at hne
    exact hne rfl
  by_cases hc : i ≥ tasks.length - 1
  · have hi : i = tasks.length - 1 := by omega
    simp [Hourglass.next, Hourglass.previous, hne, hnil, hc, hi]
  · have h0 : ¬ i + 1 = 0 := by omega
    simp [Hourglass.next, Hourglass.previous, hne, hnil, hc, h0]

/-- Witness for C7 at the concrete two-task state with index 1 selected. -/
theorem C7_advance_then_retreat_witness :
    demoState2.next.bind Hourglass.previous = some demoState2 :=
  C7_advance_then_retreat demoState2 1 rfl (by decide)

/-- Claim C8: toggling the completed flag is an involution on the whole
state — applying `toggle_task_status` twice returns it exactly (so the
completed flag of every task is restored) — and a single toggle never
changes any `created_at` or `modified_at` timestamp. -/
theorem C8_toggle_involution (h : Hourglass) :
    h.toggle_task_status.toggle_task_status = h
    ∧ h.toggle_task_status.tasks.map Task.created_at = h.tasks.map Task.created_at
    ∧ h.toggle_task_status.tasks.map Task.modified_at = h.tasks.map Task.modified_at := by
  rcases hsel : h.table_state.selected with _ | i
  · simp [Hourglass.toggle_task_status, hsel]
  · rcases hget : h.tasks[i]? with _ | t
    · simp [Hourglass.toggle_task_status, hsel, hget]
    · have hlt : i < h.tasks.length := list_lt_length_of_getElem? hget
      have hget2 : (h.tasks.set i { t with completed := !t.completed })[i]? =
          some { t with completed := !t.completed } :=
        List.getElem?_set_eq_of_lt _ (by simpa using hlt)
      refine ⟨?_, ?_, ?_⟩
      · simp only [Hourglass.toggle_task_status, hsel, hget, hget2]
        rw [List.set_set]
        have ht : ({ t with completed := !(!t.completed) } : Task) = t := by
          cases t
          simp
        rw [ht, list_set_of_getElem? hget]
      · simp only [Hourglass.toggle_task_status, hsel, hget]
        exact map_set_of_getElem? Task.created_at hget rfl
      · simp only [Hourglass.toggle_task_status, hsel, hget]
        exact map_set_of_getElem? Task.modified_at hget rfl

/-- Claim C9: pressing Escape in either pending text-entry mode, and
pressing Enter in PendingUpdate when nothing is selected, each produce
exactly the original state with an empty input buffer and browsing mode —
the task store, backing file and selection are untouched. -/
theorem C9_cancel_paths (h : Hourglass) (now : Int) :
    ((h.view = View.Task Action.Add ∨ h.view = View.Task Action.Update) →
      h.handle_input now KeyCode.Esc =
        some { h with input := "", view := View.Task Action.View })
    ∧ (h.view = View.Task Action.Update → h.table_state.selected = none →
      h.handle_input now KeyCode.Enter =
        some { h with input := "", view := View.Task Action.View }) := by
  obtain ⟨q, inp, nid, v, ⟨sel⟩, tasks, disk⟩ := h
  constructor
  · rintro (hv | hv) <;> simp only at hv <;> subst hv <;> rfl
  · intro hv hsel
    simp only at hv hsel
    subst hv
    subst hsel
    rfl

/-- Witness for C9 at concrete pending states over the initial store. -/
theorem C9_cancel_paths_witness :
    ({ Hourglass.new with view := View.Task Action.Add }).handle_input 0 KeyCode.Esc =
      some { { Hourglass.new with view := View.Task Action.Add } with
        input := "", view := View.Task Action.View }
    ∧ ({ Hourglass.new with view := View.Task Action.Update }).handle_input 0 KeyCode.Enter =
      some { { Hourglass.new with view := View.Task Action.Update } with
        input := "", view := View.Task Action.View } :=
  ⟨(C9_cancel_paths _ 0).1 (Or.inl rfl), (C9_cancel_paths _ 0).2 rfl rfl⟩

/-- Claim C10: committing PendingAdd appends a task whose description is
exactly the current input buffer — in particular the empty buffer yields
the empty description — with no constraint on the text; the buffer is
cleared, the mode returns to browsing, the new list is saved, and the
next-id counter advances. -/
theorem C10_commit_add (h : Hourglass) (now : Int)
    (hview : h.view = View.Task Action.Add) :
    h.handle_input now KeyCode.Enter =
      some { h with
        input := ""
        view := View.Task Action.View
        tasks := h.tasks ++ [{ id := h.next_id
                               description := h.input
                               completed := false
                               created_at := now
                               modified_at := now }]
        disk := h.tasks ++ [{ id := h.next_id
                              description := h.input
                              completed := false
                              created_at := now
                              modified_at := now }]
        next_id := h.next_id + 1 } := by
  obtain ⟨q, inp, nid, v, ts, tasks, disk⟩ := h
  simp only at hview
  subst hview
  rfl

/-- Witness for C10: Enter in PendingAdd over the fresh state, whose input
buffer is empty, appends the empty-description task with id 1. -/
theorem C10_commit_add_witness :
    ({ Hourglass.new with view := View.Task Action.Add }).handle_input 5 KeyCode.Enter =
      some { { Hourglass.new with view := View.Task Action.Add } with
        input := ""
        view := View.Task Action.View
        tasks := Hourglass.new.tasks ++ [{ id := Hourglass.new.next_id
                                           description := Hourglass.new.input
                                           completed := false
                                           created_at := 5
                                           modified_at := 5 }]
        disk := Hourglass.new.tasks ++ [{ id := Hourglass.new.next_id
                                          description := Hourglass.new.input
                                          completed := false
                                          created_at := 5
                                          modified_at := 5 }]
        next_id := Hourglass.new.next_id + 1 } :=
  C10_commit_add { Hourglass.new with view := View.Task Action.Add } 5 rfl

end HG
